import Mathlib

/-!
Verification of the Localization Coverage & Backfill Engine of the
web-telegram-support-bot-demo repository.

The embedding models the `translations` table of `models.py`, the bulk save
route (`routes/save_translations.py`), the GPT backfill route
(`routes/gpt_translations.py`), the flag-placeholder codec and response
parser (`services/gpt_translate.py`), and the coverage / missing-key
computations of `main.py` (`show_translations`, `translate_missing`).

Database model.  `models.py` declares the `translations` table with an
auto-increment integer primary key `id`, a NON-unique index on `key`, and NO
unique constraint over `(key, lang)` (other tables in the same file do
declare `UniqueConstraint`; this one does not).  Consequently a MySQL
`INSERT ... IGNORE` into this table never encounters a duplicate-key
conflict and always inserts a new row.  The `id` column is never read by any
of the routes modelled here (it is only counted in `settings.py`), so a row
is modelled as the triple (key, lang, text) and the table as the list of
rows in insertion order.

Strings.  Python strings are sequences of code points and are modelled as
Lean `String`s; the string primitives the routes use (`strip`, `replace`,
`in`, `endswith`, `split`, `splitlines`, `upper`) are defined below over the
underlying character lists, mirroring Python semantics, so that concrete
runs evaluate inside the kernel and the scan-and-replace logic can be
reasoned about by induction.  The flag-placeholder codec (which is pure text
manipulation) is stated directly over character lists (`PyStr`).

The external translation capability (the OpenAI chat call) is opaque: a call
either raises or returns the response text.  It is modelled by the
`CapOutcome` parameter of the handlers; the batch each route hands to the
capability is modelled separately (`ruDict`).
-/

/-- A Python string as its list of code points. -/
abbrev PyStr := List Char

/-- Python `str.strip()` with no argument: remove leading and trailing
whitespace.  Modelled with `Char.isWhitespace` (space, tab, carriage return,
line feed), which covers the whitespace occurring in this system's texts. -/
def pyStrip (s : String) : String :=
  String.mk
    (((s.data.dropWhile Char.isWhitespace).reverse.dropWhile
        Char.isWhitespace).reverse)

/-- Python `not text.strip()`: true iff the text is empty or
all-whitespace. -/
def isBlank (t : String) : Bool := pyStrip t == ""

/-- Python `s.upper()` (ASCII case mapping suffices for language codes). -/
def pyToUpper (s : String) : String := String.mk (s.data.map Char.toUpper)

/-- `leadsWith pat s`: `pat` is an initial segment of `s`. -/
def leadsWith : PyStr → PyStr → Bool
  | [], _ => true
  | _ :: _, [] => false
  | a :: as, b :: bs => a == b && leadsWith as bs

/-- Python `pat in s`: `pat` occurs as a contiguous segment of `s`. -/
def strContains (pat : PyStr) : PyStr → Bool
  | [] => leadsWith pat []
  | a :: t => leadsWith pat (a :: t) || strContains pat t

/-- Python `s.endswith(pat)`. -/
def trailsWith (s pat : PyStr) : Bool := leadsWith pat.reverse s.reverse

/-- Left-to-right scan of Python `str.replace`, with explicit fuel (one unit
per scanned position) so the recursion is structural; `strReplace` supplies
`s.length` fuel, which the scan never exhausts. -/
def strReplaceGo (pat rep : PyStr) : Nat → PyStr → PyStr
  | _, [] => []
  | 0, s => s
  | fuel + 1, a :: s =>
    if !pat.isEmpty && leadsWith pat (a :: s) then
      rep ++ strReplaceGo pat rep fuel (List.drop pat.length (a :: s))
    else
      a :: strReplaceGo pat rep fuel s

/-- Python `s.replace(pat, rep)` for non-empty `pat`: replace every
non-overlapping occurrence, scanning left to right.  (Python interleaves
`rep` when `pat` is empty; the patterns this system replaces — flag glyphs
and the sentinel — are non-empty, and for an empty `pat` this model returns
`s` unchanged.) -/
def strReplace (pat rep s : PyStr) : PyStr := strReplaceGo pat rep s.length s

/-- Python `s.replace(pat, rep)` on `String`s. -/
def pyReplace (s pat rep : String) : String :=
  String.mk (strReplace pat.data rep.data s.data)

/-- Split a character list at every occurrence of the separator
character. -/
def chSplit (c : Char) : List Char → List (List Char)
  | [] => [[]]
  | a :: t =>
    let r := chSplit c t
    if a == c then [] :: r
    else
      match r with
      | [] => [[a]]
      | h :: rs => (a :: h) :: rs

/-!
Placeholder codec (`services/gpt_translate.py`).

`patch_flag` walks the `flags.json` table (code → flag glyph) in file order;
for the first flag whose space-preceded form occurs in the text it returns
`text.replace(" " + flag, " {flag}")`, else if the text ends with the flag
it returns `text.replace(flag, "{flag}")`; if no flag matches, the text is
returned unchanged.  Python `str.replace` replaces EVERY non-overlapping
occurrence.
-/

/-- The sentinel token substituted for a flag glyph (the literal text
between braces is the word flag). -/
def sentinel : PyStr := ['\x7b', 'f', 'l', 'a', 'g', '\x7d']

/-- The sentinel as a `String`, as it appears in the response parser. -/
def sentinelS : String := String.mk sentinel

/-- `patch_flag` of `services/gpt_translate.py`, parameterised by the
`flags.json` table (an association list code → flag glyph in file order;
the table is data loaded at process start, not part of the source tree). -/
def patch_flag (flagsTbl : List (PyStr × PyStr)) (text : PyStr) : PyStr :=
  match flagsTbl with
  | [] => text
  | (_, flag) :: rest =>
    if strContains (' ' :: flag) text then
      strReplace (' ' :: flag) (' ' :: sentinel) text
    else if trailsWith text flag then
      strReplace flag sentinel text
    else
      patch_flag rest text

/-!
Response parsing (`services/gpt_translate.py`, `translate_with_gpt`).

The capability's response text is stripped, split into lines, and every line
containing a colon is split at the first colon into key and value; the value
is stripped and every sentinel occurrence is replaced by the target
language's flag (`flags.get(target_lang, target_lang.upper())`); the pair is
inserted into the result dict.  Lines without a colon are ignored, so a
response with no such line parses to the empty mapping without error.
-/

/-- Python dict assignment `d[k] = v`: overwrite in place if the key is
present, else append. -/
def dictInsert (d : List (String × String)) (k v : String) :
    List (String × String) :=
  if d.any (fun p => p.1 == k) then
    d.map (fun p => if p.1 == k then (p.1, v) else p)
  else d ++ [(k, v)]

/-- The body of the parsing loop of `translate_with_gpt`: a line containing
a colon is split at the first colon (`line.split(":", 1)`) into key and
value; the stripped value has every sentinel occurrence replaced by
`flags.get(target_lang, target_lang.upper())` and the pair is inserted into
the result dict; a line without a colon is ignored. -/
def parseLineStep (flagsTbl : List (String × String)) (targetLang : String)
    (acc : List (String × String)) (line : String) :
    List (String × String) :=
  if line.data.contains ':' then
    let k := String.mk (line.data.takeWhile (fun ch => !(ch == ':')))
    let v := String.mk
      ((line.data.dropWhile (fun ch => !(ch == ':'))).drop 1)
    let flagVal :=
      ( List.lookup targetLang flagsTbl).getD (pyToUpper targetLang)
    dictInsert acc (pyStrip k) (pyReplace (pyStrip v) sentinelS flagVal)
  else acc

/-- The line parsing loop of `translate_with_gpt`.  `str.splitlines` is
modelled as splitting at line feeds; the extra empty segment a trailing
newline would add contains no colon and is skipped, so the parsed mapping
is unaffected. -/
def parseResponse (flagsTbl : List (String × String)) (targetLang : String)
    (raw : String) : List (String × String) :=
  ((chSplit '\x0a' (pyStrip raw).data).map String.mk).foldl
    (parseLineStep flagsTbl targetLang) []

/-!
The `translations` table and the language directory.
-/

/-- A row of the `translations` table (`models.py`, class `Translation`);
the auto-increment `id` primary key carries no semantics for the modelled
routes and is omitted. -/
structure Row where
  key : String
  lang : String
  text : String
deriving DecidableEq

/-- The `translations` table: rows in insertion order.  Duplicate
(key, lang) pairs are representable because the schema has no unique
constraint over them. -/
abbrev Catalog := List Row

/-- `INSERT INTO translations (key, lang, text) VALUES (...)` with MySQL
prefix `IGNORE` (`prefix_with("IGNORE")`).  `IGNORE` suppresses
duplicate-key errors, but the schema of `models.py` has no unique constraint
on `(key, lang)` and the `id` primary key is auto-generated, so no conflict
can arise: the statement always appends a row. -/
def insertIgnoreTranslation (c : Catalog) (key lang text : String) : Catalog :=
  c ++ [⟨key, lang, text⟩]

/-- A row of the `languages` table (`models.py`, class `Language`). -/
structure LanguageD where
  code : String
  name : String
  name_ru : String
  emoji : String
  available : Bool
deriving DecidableEq

/-- Outcome of the external translation capability call: the call either
raises (network, availability, API error) or returns the response
content. -/
inductive CapOutcome
  | raises
  | returns (raw : String)

/-- An exception escaping a handler body: an `HTTPException(status, detail)`
or the exception raised by the external capability call. -/
inductive PyError
  | httpError (status : Nat) (detail : String)
  | externalFailure (detail : String)
deriving DecidableEq

/-!
The bulk save route (`routes/save_translations.py`).
-/

/-- `save_translations_handler`: for each (key, text) of the request body,
skip blank texts, otherwise run the insert-with-IGNORE; finally commit and
answer `{"status": "ok", "saved": len(data.translations)}`.  The returned
pair is (table after commit, the `saved` field).  The Python `dict[str, str]`
body is modelled as an association list in insertion order. -/
def save_translations_handler (catalog : Catalog) (lang : String)
    (translations : List (String × String)) : Catalog × Nat :=
  (translations.foldl
    (fun c kt =>
      if isBlank kt.2 then c
      else insertIgnoreTranslation c kt.1 lang kt.2)
    catalog,
   translations.length)

/-- Number of rows of the table holding exactly the given (key, lang)
pair. -/
def countPair (c : Catalog) (key lang : String) : Nat :=
  (c.filter (fun r => r.key == key && r.lang == lang)).length

/-!
The GPT backfill route (`routes/gpt_translations.py`).
-/

/-- `ru_dict`, the batch the backfill route hands to the capability:
`{row.key: row.text for row in ru_rows}` over
`select(Translation).where(Translation.lang == "ru")` — every
source-language row of the table, with later duplicate keys overwriting
earlier values, in first-appearance order. -/
def ruDict (catalog : Catalog) : List (String × String) :=
  (catalog.filter (fun r => r.lang == "ru")).foldl
    (fun d r => dictInsert d r.key r.text) []

/-- The `try` body of `gpt_translation_handler`: look the language up by
code (`HTTPException(404)` when absent), call the capability on `ru_dict`
(modelled by the `cap` outcome), then insert every non-blank parsed entry
with `INSERT ... IGNORE` and commit, answering
`{"status": "ok", "added": len(translated_dict)}`.  Errors abort before the
commit, leaving the table unchanged. -/
def gpt_translation_try (langs : List LanguageD)
    (flagsTbl : List (String × String)) (cap : CapOutcome) (catalog : Catalog)
    (reqLang : String) : Except PyError (Catalog × Nat) :=
  match langs.find? (fun l => l.code == reqLang) with
  | none => .error (.httpError 404 "Язык не найден")
  | some lang =>
    match cap with
    | .raises => .error (.externalFailure "translate_with_gpt")
    | .returns raw =>
      let translated := parseResponse flagsTbl lang.code raw
      let catalog' := translated.foldl
        (fun c kv =>
          if isBlank kv.2 then c
          else insertIgnoreTranslation c kv.1 lang.code kv.2)
        catalog
      .ok (catalog', translated.length)

/-- The HTTP response of a route together with the table state once the
request has finished (uncommitted work is discarded when the session exits
on an exception). -/
structure HandlerOutcome where
  status : Nat
  added : Option Nat
  catalog : Catalog
deriving DecidableEq

/-- `gpt_translation_handler` with its `except Exception` wrapper: ANY
exception escaping the body — the `HTTPException(404)` for an unknown
language included, since `HTTPException` subclasses `Exception` — is caught
and re-raised as `HTTPException(status_code=500, detail=str(e))`, and the
session closes without committing, so the table is unchanged. -/
def gpt_translation_handler (langs : List LanguageD)
    (flagsTbl : List (String × String)) (cap : CapOutcome) (catalog : Catalog)
    (reqLang : String) : HandlerOutcome :=
  match gpt_translation_try langs flagsTbl cap catalog reqLang with
  | .error _ => ⟨500, none, catalog⟩
  | .ok (catalog', n) => ⟨200, some n, catalog'⟩

/-!
Coverage and missing keys (`main.py`).
-/

/-- Deduplicate keeping first occurrences, with the already-seen
accumulator explicit so the recursion is structural. -/
def dedupFirstAux (seen : List String) : List String → List String
  | [] => []
  | a :: l =>
    if seen.contains a then dedupFirstAux seen l
    else a :: dedupFirstAux (a :: seen) l

/-- The distinct members of a list, in first-appearance order — the
iteration order of a Python dict or `defaultdict` keyed by them. -/
def dedupFirst (l : List String) : List String := dedupFirstAux [] l

/-- The set of languages a key has rows for (`existing[key]` in
`translate_missing`). -/
def keyLangs (rows : Catalog) (k : String) : List String :=
  (rows.filter (fun r => r.key == k)).map (fun r => r.lang)

/-- The missing-key computation of `translate_missing` (`main.py`): the keys
(over ALL rows, in first-appearance order) that have a "ru" row and no row
for the target language.  The source contains no exclusion of the reserved
key "welcome" here. -/
def missing_keys (rows : Catalog) (lang : String) : List String :=
  (dedupFirst (rows.map (fun r => r.key))).filter
    (fun k =>
      (keyLangs rows k).contains "ru" && !((keyLangs rows k).contains lang))

/-- `translate_missing` (`main.py`): read the table, look the target
language up by primary key — with no enclosing `try`, so
`HTTPException(404, ...)` propagates to the caller unchanged — then hand the
missing keys' "ru" texts to the capability and return the parsed mapping.
No insert is ever executed.  (The `f`-string detail wraps the code in
apostrophes.) -/
def translate_missing_handler (langs : List LanguageD)
    (flagsTbl : List (String × String)) (cap : CapOutcome) (rows : Catalog)
    (reqLang : String) : Except PyError (List (String × String)) :=
  match langs.find? (fun l => l.code == reqLang) with
  | none =>
    .error (.httpError 404 ("Language \x27" ++ reqLang ++ "\x27 not found"))
  | some _ =>
    match cap with
    | .raises => .error (.externalFailure "translate_with_gpt")
    | .returns raw => .ok (parseResponse flagsTbl reqLang raw)

/-- Python dict assignment `translations[k][lang] = text` on the two-level
`defaultdict(dict)` of `show_translations`, preserving insertion order. -/
def outerInsert (d : List (String × List (String × String)))
    (k lg tx : String) : List (String × List (String × String)) :=
  if d.any (fun p => p.1 == k) then
    d.map (fun p => if p.1 == k then (p.1, dictInsert p.2 lg tx) else p)
  else d ++ [(k, dictInsert [] lg tx)]

/-- The two-level dictionary `translations[key][lang] = text` built by
`show_translations` from every row of the table. -/
def buildTranslations (rows : Catalog) :
    List (String × List (String × String)) :=
  rows.foldl (fun d r => outerInsert d r.key r.lang r.text) []

/-- `used_lang_codes`: the language codes occurring in the table. -/
def usedLangCodes (rows : Catalog) : List String :=
  dedupFirst (rows.map (fun r => r.lang))

/-- `filtered_keys`: the keys of the two-level dictionary — the distinct
keys present for ANY language — with the reserved key "welcome" removed. -/
def filteredKeys (rows : Catalog) : List String :=
  ((buildTranslations rows).map (fun p => p.1)).filter
    (fun k => !(k == "welcome"))

/-- `total_keys = len(filtered_keys)`. -/
def total_keys (rows : Catalog) : Nat := (filteredKeys rows).length

/-- `l.code in translations[k]`: the key has an entry for the language in
the two-level dictionary. -/
def keyHasLang (rows : Catalog) (k code : String) : Bool :=
  (( List.lookup k (buildTranslations rows)).getD []).any
    (fun p => p.1 == code)

/-- `filled_count[code]`: how many filtered keys have an entry for the
language. -/
def filled_count (rows : Catalog) (code : String) : Nat :=
  ((filteredKeys rows).filter (fun k => keyHasLang rows k code)).length

/-- `missing_count[code] = total_keys - filled`. -/
def missing_count (rows : Catalog) (code : String) : Nat :=
  total_keys rows - filled_count rows code

/-- `selected_lang`: the language whose code equals the `add` query
parameter, when one is given and known. -/
def selectedLang (all_langs : List LanguageD) (param : Option String) :
    Option LanguageD :=
  match param with
  | none => none
  | some c => all_langs.find? (fun l => l.code == c)

/-- The language list `show_translations` displays: with a selected new
language, "ru" plus that language; otherwise every language already used in
the table.  The source then sorts this list (the "ru" entry first, the rest
by `name_ru`); the sort only permutes it and is omitted here — the
properties proved below depend only on membership. -/
def langsForView (all_langs : List LanguageD) (rows : Catalog)
    (param : Option String) : List LanguageD :=
  match selectedLang all_langs param with
  | some sl =>
    (all_langs.filter (fun l => l.code == "ru"))
      ++ (if sl.code == "ru" then [] else [sl])
  | none => all_langs.filter (fun l => (usedLangCodes rows).contains l.code)

/-- The rendered data of the translations page. -/
structure PreviewPage where
  translations : List (String × List (String × String))
  temp : List (String × String)
  filled : List (String × Nat)
  missing : List (String × Nat)
deriving DecidableEq

/-- `show_translations` (`main.py`): read the whole table, build the
two-level dictionary and the per-language statistics; when a new language is
selected via the `add` parameter, run the capability over the "ru" texts
(the batch is abstracted into the `cap` outcome) and merge the preview into
the in-memory dictionary only.  The handler contains no insert or update
statement, so the second component — the table when the request finishes —
is the input table on every path. -/
def show_translations (all_langs : List LanguageD)
    (flagsTbl : List (String × String)) (cap : CapOutcome) (rows : Catalog)
    (addParam : Option String) : Except PyError PreviewPage × Catalog :=
  let translations := buildTranslations rows
  let langs := langsForView all_langs rows addParam
  let filled := langs.map (fun l => (l.code, filled_count rows l.code))
  let missing := langs.map (fun l => (l.code, missing_count rows l.code))
  match selectedLang all_langs addParam with
  | none => (.ok ⟨translations, [], filled, missing⟩, rows)
  | some sl =>
    match cap with
    | .raises => (.error (.externalFailure "translate_with_gpt"), rows)
    | .returns raw =>
      let gpt := parseResponse flagsTbl sl.code raw
      let merged := gpt.foldl
        (fun d kv => outerInsert d kv.1 sl.code kv.2) translations
      (.ok ⟨merged, gpt, filled, missing⟩, rows)

/-!
Theorems.
-/

/-- C1: evaluation of the bulk-save commit at the failing input.  With the
row ("greeting", "en", "hello") already persisted, committing
{"greeting": "hi"} for language "en" appends a SECOND row for the pair
("greeting", "en") — `INSERT IGNORE` has no unique constraint on
(key, lang) to act on — instead of being the silent no-op the claim
describes.  The pre-existing text is left unmodified, but the pair now has
two rows. -/
theorem c1_insert_ignore_adds_duplicate_row :
    save_translations_handler [⟨"greeting", "en", "hello"⟩] "en"
        [("greeting", "hi")]
      = ([⟨"greeting", "en", "hello"⟩, ⟨"greeting", "en", "hi"⟩], 1)
    ∧ countPair (save_translations_handler [⟨"greeting", "en", "hello"⟩] "en"
        [("greeting", "hi")]).1 "greeting" "en" = 2 := by
  exact ⟨rfl, rfl⟩

/-- C2 counterexample: committing the single blank entry {"a": "  "} over an
empty table adds no row, yet the handler reports `saved = 1` — the size of
the input mapping — so the reported count is not the number of rows the
insert actually added. -/
theorem c2_saved_count_not_rows_added :
    save_translations_handler [] "en" [("a", "  ")] = ([], 1)
    ∧ (save_translations_handler [] "en" [("a", "  ")]).2
        ≠ (save_translations_handler [] "en" [("a", "  ")]).1.length := by
  constructor
  · rfl
  · decide

private lemma save_fold_length (lang : String) :
    ∀ (ts : List (String × String)) (c : Catalog),
      (ts.foldl
        (fun c kt =>
          if isBlank kt.2 then c
          else insertIgnoreTranslation c kt.1 lang kt.2) c).length
        = c.length + (ts.filter (fun kt => !(isBlank kt.2))).length := by
  intro ts
  induction ts with
  | nil => intro c; simp
  | cons kt ts ih =>
    intro c
    by_cases h : isBlank kt.2
    · simp [List.foldl_cons, h, ih c]
    · simp only [List.foldl_cons, if_neg h, List.filter_cons]
      rw [ih]
      simp [insertIgnoreTranslation, h, Nat.add_assoc, Nat.add_comm 1]

/-- C2 (amended): the `saved` field returned by the bulk-save route equals
the size of the input mapping — blank-skipped entries and already-present
pairs included — while the number of rows actually added equals the number
of entries with non-blank text (every non-blank entry adds a row, present
pair or not, since the table has no unique constraint). -/
theorem c2_saved_equals_input_size (catalog : Catalog) (lang : String)
    (ts : List (String × String)) :
    (save_translations_handler catalog lang ts).2 = ts.length
    ∧ (save_translations_handler catalog lang ts).1.length
        = catalog.length + (ts.filter (fun kt => !(isBlank kt.2))).length := by
  refine ⟨rfl, ?_⟩
  exact save_fold_length lang ts catalog

/-- C3: evaluation at the failing input.  First commit of
{"greeting": "hi"} for "en" over the empty table yields one row and
`saved = 1`; running the identical commit again over that state yields
`saved = 1` (not 0) and a table with a second, duplicate row — the commit is
not idempotent. -/
theorem c3_second_commit_not_idempotent :
    (save_translations_handler
        (save_translations_handler [] "en" [("greeting", "hi")]).1
        "en" [("greeting", "hi")])
      = ([⟨"greeting", "en", "hi"⟩, ⟨"greeting", "en", "hi"⟩], 1)
    ∧ (save_translations_handler
        (save_translations_handler [] "en" [("greeting", "hi")]).1
        "en" [("greeting", "hi")]).2 ≠ 0
    ∧ (save_translations_handler
        (save_translations_handler [] "en" [("greeting", "hi")]).1
        "en" [("greeting", "hi")]).1
        ≠ (save_translations_handler [] "en" [("greeting", "hi")]).1 := by
  refine ⟨rfl, by decide, by decide⟩

private lemma strReplaceGo_fuel (pat rep : PyStr) :
    ∀ (fuel : Nat) (s : PyStr), s.length ≤ fuel →
      strReplaceGo pat rep fuel s = strReplaceGo pat rep s.length s := by
  intro fuel
  induction fuel using Nat.strong_induction_on with
  | _ fuel ih =>
    intro s hs
    match s with
    | [] => cases fuel <;> rfl
    | a :: s' =>
      match fuel, hs with
      | g + 1, hs =>
        have hsg : s'.length ≤ g := by
          simpa using Nat.lt_succ_iff.mp (Nat.lt_of_lt_of_le
            (by simp [Nat.lt_succ_iff]) hs)
        by_cases hc : (!pat.isEmpty && leadsWith pat (a :: s')) = true
        · have hpat : pat ≠ [] := by
            intro hnil
            rw [hnil] at hc
            simp [List.isEmpty] at hc
          have hplen : 0 < pat.length := List.length_pos.mpr hpat
          show strReplaceGo pat rep (g + 1) (a :: s')
              = strReplaceGo pat rep (s'.length + 1) (a :: s')
          simp only [strReplaceGo, hc, if_true]
          have hd : (List.drop pat.length (a :: s')).length ≤ g := by
            simp only [List.length_drop, List.length_cons]
            omega
          have hd2 : (List.drop pat.length (a :: s')).length ≤ s'.length := by
            simp only [List.length_drop, List.length_cons]
            omega
          rw [ih g (Nat.lt_succ_self g) _ hd,
            ih s'.length (Nat.lt_succ_of_le hsg) _ hd2]
        · show strReplaceGo pat rep (g + 1) (a :: s')
              = strReplaceGo pat rep (s'.length + 1) (a :: s')
          simp only [strReplaceGo]
          rw [if_neg hc, if_neg hc]
          rw [ih g (Nat.lt_succ_self g) s' hsg,
            ih s'.length (Nat.lt_succ_of_le hsg) s' (Nat.le_refl _)]

private lemma strReplace_cons (pat rep : PyStr) (a : Char) (s : PyStr) :
    strReplace pat rep (a :: s)
      = if !pat.isEmpty && leadsWith pat (a :: s) then
          rep ++ strReplace pat rep (List.drop pat.length (a :: s))
        else a :: strReplace pat rep s := by
  by_cases hc : (!pat.isEmpty && leadsWith pat (a :: s)) = true
  · have hpat : pat ≠ [] := by
      intro hnil
      rw [hnil] at hc
      simp [List.isEmpty] at hc
    have hplen : 0 < pat.length := List.length_pos.mpr hpat
    have hd2 : (List.drop pat.length (a :: s)).length ≤ s.length := by
      simp only [List.length_drop, List.length_cons]
      omega
    simp only [strReplace, List.length_cons, strReplaceGo, hc, if_true]
    rw [strReplaceGo_fuel pat rep s.length _ hd2]
  · simp only [strReplace, List.length_cons, strReplaceGo]
    rw [if_neg hc, if_neg hc]

private lemma leadsWith_append (p t : PyStr) : leadsWith p (p ++ t) = true := by
  induction p with
  | nil => simp [leadsWith]
  | cons a as ih => simp [leadsWith, ih]

private lemma strContains_append_mid (p s t : PyStr) (hp : p ≠ []) :
    strContains p (s ++ (p ++ t)) = true := by
  induction s with
  | nil =>
    simp only [List.nil_append]
    match p, hp with
    | a :: as, _ =>
      simp only [List.cons_append, strContains, Bool.or_eq_true]
      exact Or.inl (leadsWith_append (a :: as) t)
  | cons b bs ih =>
    simp only [List.cons_append, strContains, Bool.or_eq_true]
    exact Or.inr ih

private lemma strReplace_skip (f r : PyStr) :
    ∀ (s u : PyStr), (∀ c ∈ s, c ≠ ' ') →
      strReplace (' ' :: f) r (s ++ u) = s ++ strReplace (' ' :: f) r u := by
  intro s
  induction s with
  | nil => intro u _; simp
  | cons a as ih =>
    intro u hs
    have ha : a ≠ ' ' := hs a (List.mem_cons_self a as)
    have hlead : leadsWith (' ' :: f) (a :: (as ++ u)) = false := by
      show ((' ' == a) && leadsWith f (as ++ u)) = false
      have hb : (' ' == a) = false := by
        rw [beq_eq_false_iff_ne]
        exact fun h => ha h.symm
      simp [hb]
    rw [List.cons_append, strReplace_cons]
    simp only [hlead, Bool.and_false, Bool.false_eq_true, if_false]
    rw [ih u (fun c hc => hs c (List.mem_cons_of_mem a hc))]
    rw [List.cons_append]

private lemma strReplace_hit (f r t : PyStr) :
    strReplace (' ' :: f) r ((' ' :: f) ++ t)
      = r ++ strReplace (' ' :: f) r t := by
  rw [List.cons_append, strReplace_cons]
  have hlead : leadsWith (' ' :: f) (' ' :: (f ++ t)) = true :=
    leadsWith_append (' ' :: f) t
  simp only [hlead, List.isEmpty_cons, Bool.not_false, Bool.true_and, if_true]
  congr 1
  have hdrop : List.drop (' ' :: f).length (' ' :: (f ++ t)) = t := by
    simp [List.drop_left]
  rw [hdrop]

private lemma strReplace_pure (f r s : PyStr) (hs : ∀ c ∈ s, c ≠ ' ') :
    strReplace (' ' :: f) r s = s := by
  have h := strReplace_skip f r s [] hs
  have h0 : strReplace (' ' :: f) r [] = [] := rfl
  rw [List.append_nil, h0, List.append_nil] at h
  exact h

private lemma patch_flag_single_double (c0 f pre mid post : PyStr)
    (hpre : ∀ ch ∈ pre, ch ≠ ' ') (hmid : ∀ ch ∈ mid, ch ≠ ' ')
    (hpost : ∀ ch ∈ post, ch ≠ ' ') :
    patch_flag [(c0, f)]
        (pre ++ (' ' :: f) ++ mid ++ (' ' :: f) ++ post)
      = pre ++ (' ' :: sentinel) ++ mid ++ (' ' :: sentinel) ++ post := by
  have hshape :
      pre ++ (' ' :: f) ++ mid ++ (' ' :: f) ++ post
        = pre ++ ((' ' :: f) ++ (mid ++ ((' ' :: f) ++ post))) := by
    simp [List.append_assoc]
  have hcont :
      strContains (' ' :: f)
        (pre ++ (' ' :: f) ++ mid ++ (' ' :: f) ++ post) = true := by
    rw [hshape]
    exact strContains_append_mid (' ' :: f) pre (mid ++ ((' ' :: f) ++ post))
      (by simp)
  simp only [patch_flag, hcont, if_true]
  rw [hshape]
  rw [strReplace_skip f (' ' :: sentinel) pre _ hpre]
  rw [strReplace_hit]
  rw [strReplace_skip f (' ' :: sentinel) mid _ hmid]
  rw [strReplace_hit]
  rw [strReplace_pure f (' ' :: sentinel) post hpost]
  simp [List.append_assoc]

/-- C4 counterexample: with a single-entry flag table whose glyph is `F`,
the text `a F F` carries the marker in two qualifying (space-preceded)
positions.  The claim predicts that only the first is substituted, leaving
`a <sentinel> F`; the code substitutes BOTH occurrences (Python
`str.replace` replaces every occurrence), so no qualifying position retains
the marker. -/
theorem c4_replaces_all_occurrences_at_input :
    patch_flag [(['g', 'b'], ['F'])] ['a', ' ', 'F', ' ', 'F']
      = ['a'] ++ (' ' :: sentinel) ++ [] ++ (' ' :: sentinel) ++ []
    ∧ patch_flag [(['g', 'b'], ['F'])] ['a', ' ', 'F', ' ', 'F']
      ≠ ['a'] ++ (' ' :: sentinel) ++ [' ', 'F'] := by
  have h2 : patch_flag [(['g', 'b'], ['F'])] ['a', ' ', 'F', ' ', 'F']
      = ['a'] ++ (' ' :: sentinel) ++ [] ++ (' ' :: sentinel) ++ [] :=
    patch_flag_single_double ['g', 'b'] ['F'] ['a'] [] []
      (by decide) (by decide) (by decide)
  refine ⟨h2, ?_⟩
  rw [h2]
  decide

/-- C4 (amended): for a flag glyph occurring in two space-preceded
positions, `patch_flag` substitutes the sentinel for BOTH occurrences
(Python `str.replace` replaces every occurrence), not only the first; the
segments of the text around the occurrences are untouched. -/
theorem c4_patch_flag_replaces_every_space_occurrence
    (c0 f pre mid post : PyStr)
    (hpre : ∀ ch ∈ pre, ch ≠ ' ') (hmid : ∀ ch ∈ mid, ch ≠ ' ')
    (hpost : ∀ ch ∈ post, ch ≠ ' ') :
    patch_flag [(c0, f)]
        (pre ++ (' ' :: f) ++ mid ++ (' ' :: f) ++ post)
      = pre ++ (' ' :: sentinel) ++ mid ++ (' ' :: sentinel) ++ post :=
  patch_flag_single_double c0 f pre mid post hpre hmid hpost

/-- Witness for the amended C4 theorem at the concrete text `a F b F`. -/
theorem c4_patch_flag_witness :
    patch_flag [(['g', 'b'], ['F'])]
        (['a'] ++ (' ' :: ['F']) ++ ['b'] ++ (' ' :: ['F']) ++ [])
      = ['a'] ++ (' ' :: sentinel) ++ ['b'] ++ (' ' :: sentinel) ++ [] := by
  exact c4_patch_flag_replaces_every_space_occurrence
    ['g', 'b'] ['F'] ['a'] ['b'] []
    (by decide) (by decide) (by decide)

private lemma mem_dedupFirstAux (a : String) :
    ∀ (l seen : List String),
      a ∈ dedupFirstAux seen l ↔ a ∈ l ∧ a ∉ seen := by
  intro l
  induction l with
  | nil => intro seen; simp [dedupFirstAux]
  | cons b l ih =>
    intro seen
    cases hb : seen.contains b with
    | true =>
      have hbmem : b ∈ seen := List.elem_iff.mp hb
      have hstep : dedupFirstAux seen (b :: l) = dedupFirstAux seen l := by
        show (if seen.contains b then dedupFirstAux seen l
            else b :: dedupFirstAux (b :: seen) l) = dedupFirstAux seen l
        rw [hb]
        rfl
      rw [hstep, ih]
      constructor
      · rintro ⟨hl, hns⟩
        exact ⟨List.mem_cons_of_mem b hl, hns⟩
      · rintro ⟨hbl, hns⟩
        rcases List.mem_cons.mp hbl with hab | hl
        · exact absurd (hab ▸ hbmem) hns
        · exact ⟨hl, hns⟩
    | false =>
      have hbmem : b ∉ seen := by
        intro h
        have hc : seen.contains b = true := List.elem_iff.mpr h
        rw [hb] at hc
        exact Bool.false_ne_true hc
      have hstep :
          dedupFirstAux seen (b :: l) = b :: dedupFirstAux (b :: seen) l := by
        show (if seen.contains b then dedupFirstAux seen l
            else b :: dedupFirstAux (b :: seen) l)
          = b :: dedupFirstAux (b :: seen) l
        rw [hb]
        rfl
      rw [hstep]
      rw [List.mem_cons, ih]
      constructor
      · rintro (rfl | ⟨hl, hns⟩)
        · exact ⟨List.mem_cons_self a l, hbmem⟩
        · refine ⟨List.mem_cons_of_mem b hl, fun h => ?_⟩
          exact hns (List.mem_cons_of_mem b h)
      · rintro ⟨hbl, hns⟩
        by_cases hab : a = b
        · exact Or.inl hab
        · rcases List.mem_cons.mp hbl with hab2 | hl
          · exact absurd hab2 hab
          · right
            refine ⟨hl, fun h => ?_⟩
            rcases List.mem_cons.mp h with hab2 | h2
            · exact hab hab2
            · exact hns h2

private lemma mem_dedupFirst (a : String) (l : List String) :
    a ∈ dedupFirst l ↔ a ∈ l := by
  simp [dedupFirst, mem_dedupFirstAux]

private lemma keyLangs_contains_iff (rows : Catalog) (k c : String) :
    (keyLangs rows k).contains c = true
      ↔ ∃ r ∈ rows, r.key = k ∧ r.lang = c := by
  rw [List.elem_iff]
  unfold keyLangs
  simp only [List.mem_map, List.mem_filter, beq_iff_eq]
  constructor
  · rintro ⟨r, ⟨hr, hk⟩, hl⟩
    exact ⟨r, hr, hk, hl⟩
  · rintro ⟨r, hr, hk, hl⟩
    exact ⟨r, ⟨hr, hk⟩, hl⟩

/-- C6 counterexample: the spec's own example.  With source-language keys
{welcome, greeting, bye} and target-language ("en") keys {greeting}, the
missing-key computation returns [welcome, bye] — the reserved key "welcome"
IS included, since `translate_missing` filters only on "has a ru row and no
target row" with no exclusion of the reserved key. -/
theorem c6_missing_keys_includes_welcome :
    missing_keys
        [⟨"welcome", "ru", "w"⟩, ⟨"greeting", "ru", "g"⟩,
         ⟨"bye", "ru", "b"⟩, ⟨"greeting", "en", "gr"⟩] "en"
      = ["welcome", "bye"]
    ∧ "welcome" ∈ missing_keys
        [⟨"welcome", "ru", "w"⟩, ⟨"greeting", "ru", "g"⟩,
         ⟨"bye", "ru", "b"⟩, ⟨"greeting", "en", "gr"⟩] "en" := by
  constructor
  · rfl
  · decide

/-- C6 (amended): the missing-key computation returns exactly the keys that
have a source-language ("ru") row and no target-language row — WITHOUT
excluding the reserved key "welcome"; on the spec's example it returns
{welcome, bye}, not {bye}. -/
theorem c6_missing_keys_characterization (rows : Catalog) (lang k : String) :
    k ∈ missing_keys rows lang
      ↔ ((∃ r ∈ rows, r.key = k ∧ r.lang = "ru")
          ∧ ¬ ∃ r ∈ rows, r.key = k ∧ r.lang = lang) := by
  unfold missing_keys
  rw [List.mem_filter, mem_dedupFirst]
  have h1 := keyLangs_contains_iff rows k "ru"
  have h2 := keyLangs_contains_iff rows k lang
  constructor
  · rintro ⟨_, hb⟩
    simp only [Bool.and_eq_true, Bool.not_eq_true'] at hb
    refine ⟨h1.mp hb.1, fun hex => ?_⟩
    rw [← h2] at hex
    rw [hb.2] at hex
    exact Bool.false_ne_true hex
  · rintro ⟨hru, hnl⟩
    have hk : k ∈ rows.map (fun r => r.key) := by
      rcases hru with ⟨r, hr, hkey, _⟩
      exact List.mem_map.mpr ⟨r, hr, hkey⟩
    refine ⟨hk, ?_⟩
    simp only [Bool.and_eq_true, Bool.not_eq_true']
    refine ⟨h1.mpr hru, ?_⟩
    rcases hb : (keyLangs rows lang).contains lang with _ | _
    · rcases hb2 : (keyLangs rows k).contains lang with _ | _
      · rfl
      · exact absurd (h2.mp hb2) hnl
    · rcases hb2 : (keyLangs rows k).contains lang with _ | _
      · rfl
      · exact absurd (h2.mp hb2) hnl

/-- C5 counterexample: with the table {("y","ru"), ("x","en")} and both
languages known, the page displays "ru" and "en", but the key set the page
counts is the distinct keys of ANY language minus "welcome" — here
{y, x}, total 2 — so the source language "ru" (which lacks a row for "x")
gets `missing = 1`, not the 0 the claim asserts. -/
theorem c5_source_language_missing_nonzero :
    (langsForView
        [⟨"ru", "Russian", "Russkij", "", true⟩,
         ⟨"en", "English", "Anglijskij", "", true⟩]
        [⟨"y", "ru", "s"⟩, ⟨"x", "en", "t"⟩] none).map (fun l => l.code)
      = ["ru", "en"]
    ∧ total_keys [⟨"y", "ru", "s"⟩, ⟨"x", "en", "t"⟩] = 2
    ∧ missing_count [⟨"y", "ru", "s"⟩, ⟨"x", "en", "t"⟩] "ru" = 1
    ∧ missing_count [⟨"y", "ru", "s"⟩, ⟨"x", "en", "t"⟩] "ru" ≠ 0 := by
  refine ⟨rfl, rfl, rfl, by decide⟩

/-- C5 (amended): for every table state and language,
`filled_count + missing_count = total_keys`, where the canonical key set is
the set of distinct keys present for ANY language minus the reserved key
"welcome"; and the source language "ru" has `missing_count = 0` provided
every canonical key has a "ru" entry (a key existing only for a non-source
language breaks this). -/
theorem c5_coverage_totals (rows : Catalog) (code : String) :
    filled_count rows code + missing_count rows code = total_keys rows
    ∧ ((∀ k ∈ filteredKeys rows, keyHasLang rows k "ru" = true) →
        missing_count rows "ru" = 0) := by
  constructor
  · have hle : filled_count rows code ≤ total_keys rows := by
      unfold filled_count total_keys
      exact List.length_filter_le _ _
    unfold missing_count
    omega
  · intro h
    have heq : filled_count rows "ru" = total_keys rows := by
      unfold filled_count total_keys
      rw [List.filter_eq_self.mpr h]
    unfold missing_count
    omega

/-- Witness for the amended C5 theorem on a one-row source-language
table. -/
theorem c5_coverage_totals_witness :
    filled_count [⟨"greeting", "ru", "privet"⟩] "ru"
        + missing_count [⟨"greeting", "ru", "privet"⟩] "ru"
      = total_keys [⟨"greeting", "ru", "privet"⟩]
    ∧ missing_count [⟨"greeting", "ru", "privet"⟩] "ru" = 0 :=
  ⟨(c5_coverage_totals [⟨"greeting", "ru", "privet"⟩] "ru").1,
   (c5_coverage_totals [⟨"greeting", "ru", "privet"⟩] "ru").2 (by decide)⟩

private lemma parse_fold_no_colon (flagsTbl : List (String × String))
    (tl : String) :
    ∀ (lines : List String) (acc : List (String × String)),
      (∀ line ∈ lines, line.data.contains ':' = false) →
      lines.foldl (parseLineStep flagsTbl tl) acc = acc := by
  intro lines
  induction lines with
  | nil => intro acc _; rfl
  | cons line lines ih =>
    intro acc h
    rw [List.foldl_cons]
    have hline : line.data.contains ':' = false :=
      h line (List.mem_cons_self line lines)
    have hstep : parseLineStep flagsTbl tl acc line = acc := by
      unfold parseLineStep
      rw [hline]
      rfl
    rw [hstep]
    exact ih acc (fun l hl => h l (List.mem_cons_of_mem line hl))

private lemma parseResponse_no_colon (flagsTbl : List (String × String))
    (tl raw : String)
    (h : ∀ line ∈ (chSplit '\x0a' (pyStrip raw).data).map String.mk,
      line.data.contains ':' = false) :
    parseResponse flagsTbl tl raw = [] := by
  unfold parseResponse
  exact parse_fold_no_colon flagsTbl tl _ [] h

/-- C7 counterexample: with the language known and the capability returning
the unparseable text `garbage` (no `key: text` line), the commit-mode
backfill does NOT surface a terminal error: it answers HTTP 200 with
`added = 0` and leaves the table unchanged.  (Atomicity holds, but the
"unparseable output ⟹ terminal error" half of the claim fails.) -/
theorem c7_unparseable_output_returns_success :
    gpt_translation_handler [⟨"en", "English", "Anglijskij", "", true⟩] []
        (.returns "garbage") [⟨"greeting", "ru", "privet"⟩] "en"
      = ⟨200, some 0, [⟨"greeting", "ru", "privet"⟩]⟩
    ∧ (gpt_translation_handler [⟨"en", "English", "Anglijskij", "", true⟩] []
        (.returns "garbage") [⟨"greeting", "ru", "privet"⟩] "en").status
      ≠ 500 := by
  refine ⟨rfl, by decide⟩

/-- C7 (amended): if the capability call raises, the commit-mode backfill
surfaces a single terminal HTTP 500 error and the table is unchanged (the
session closes before any insert is executed); if the call returns output
with no parseable `key: text` line, the handler succeeds with `added = 0`
and the table is likewise unchanged.  In both cases no partial persistence
occurs. -/
theorem c7_failure_atomicity (langs : List LanguageD)
    (flagsTbl : List (String × String)) (catalog : Catalog)
    (code : String) (l : LanguageD) (raw : String)
    (hl : langs.find? (fun x => x.code == code) = some l)
    (hraw : ∀ line ∈ (chSplit '\x0a' (pyStrip raw).data).map String.mk,
      line.data.contains ':' = false) :
    gpt_translation_handler langs flagsTbl .raises catalog code
      = ⟨500, none, catalog⟩
    ∧ gpt_translation_handler langs flagsTbl (.returns raw) catalog code
      = ⟨200, some 0, catalog⟩ := by
  have hparse : parseResponse flagsTbl l.code raw = [] :=
    parseResponse_no_colon flagsTbl l.code raw hraw
  constructor
  · unfold gpt_translation_handler gpt_translation_try
    rw [hl]
  · have htry : gpt_translation_try langs flagsTbl (.returns raw) catalog code
        = .ok (catalog, 0) := by
      unfold gpt_translation_try
      rw [hl]
      simp only [hparse, List.foldl_nil, List.length_nil]
    unfold gpt_translation_handler
    rw [htry]

/-- Witness for the amended C7 theorem at a concrete language directory,
table and capability response. -/
theorem c7_failure_atomicity_witness :
    gpt_translation_handler [⟨"en", "English", "Anglijskij", "", true⟩] []
        .raises [⟨"greeting", "ru", "privet"⟩] "en"
      = ⟨500, none, [⟨"greeting", "ru", "privet"⟩]⟩
    ∧ gpt_translation_handler [⟨"en", "English", "Anglijskij", "", true⟩] []
        (.returns "no parseable line") [⟨"greeting", "ru", "privet"⟩] "en"
      = ⟨200, some 0, [⟨"greeting", "ru", "privet"⟩]⟩ :=
  c7_failure_atomicity [⟨"en", "English", "Anglijskij", "", true⟩] []
    [⟨"greeting", "ru", "privet"⟩] "en" ⟨"en", "English", "Anglijskij", "", true⟩
    "no parseable line" (by rfl) (by decide)

/-- C8: evaluation at the failing input.  Requesting the commit-mode
backfill for the unknown language code `xx` raises `HTTPException(404)`
inside the `try` body, but the blanket `except Exception` of
`gpt_translation_handler` catches it (FastAPI's `HTTPException` subclasses
`Exception`) and re-raises `HTTPException(500, str(e))`: the caller receives
a 500, not the 404 — unlike `translate_missing`, which has no enclosing
`try` and surfaces the 404 unchanged.  Neither route touches the table. -/
theorem c8_unknown_language_becomes_500 :
    gpt_translation_try [⟨"en", "English", "Anglijskij", "", true⟩] []
        (.returns "x: y") [⟨"greeting", "ru", "privet"⟩] "xx"
      = .error (.httpError 404 "Язык не найден")
    ∧ gpt_translation_handler [⟨"en", "English", "Anglijskij", "", true⟩] []
        (.returns "x: y") [⟨"greeting", "ru", "privet"⟩] "xx"
      = ⟨500, none, [⟨"greeting", "ru", "privet"⟩]⟩
    ∧ translate_missing_handler [⟨"en", "English", "Anglijskij", "", true⟩] []
        (.returns "x: y") [⟨"greeting", "ru", "privet"⟩] "xx"
      = .error (.httpError 404 "Language \x27xx\x27 not found") := by
  refine ⟨rfl, rfl, rfl⟩

/-- C9: the preview backfill never mutates the table.  On every path of
`show_translations` — no language selected, preview with a capability
failure, preview with a returned response — the table when the request
finishes equals the input table, and the coverage `filled_count` recomputed
over it is unchanged for every language: the preview merge touches only the
in-memory page dictionary. -/
theorem c9_preview_preserves_catalog (all_langs : List LanguageD)
    (flagsTbl : List (String × String)) (cap : CapOutcome) (rows : Catalog)
    (addParam : Option String) :
    (show_translations all_langs flagsTbl cap rows addParam).2 = rows
    ∧ ∀ code : String,
        filled_count
            (show_translations all_langs flagsTbl cap rows addParam).2 code
          = filled_count rows code := by
  have h2 : (show_translations all_langs flagsTbl cap rows addParam).2
      = rows := by
    cases hsel : selectedLang all_langs addParam with
    | none => simp [show_translations, hsel]
    | some sl =>
      cases cap with
      | raises => simp [show_translations, hsel]
      | returns raw => simp [show_translations, hsel]
  exact ⟨h2, fun code => by rw [h2]⟩

private lemma dictInsert_keys_mem (d : List (String × String))
    (k v x : String) :
    x ∈ (dictInsert d k v).map (fun p => p.1)
      ↔ x ∈ d.map (fun p => p.1) ∨ x = k := by
  unfold dictInsert
  by_cases hd : d.any (fun p => p.1 == k) = true
  · rw [if_pos hd]
    have hkeys :
        (d.map (fun p => if p.1 == k then (p.1, v) else p)).map
            (fun p => p.1)
          = d.map (fun p => p.1) := by
      rw [List.map_map]
      apply List.map_congr_left
      intro p _
      by_cases hpk : (p.1 == k) = true
      · simp only [Function.comp_apply]
        rw [if_pos hpk]
      · simp only [Function.comp_apply]
        rw [if_neg hpk]
    rw [hkeys]
    constructor
    · exact Or.inl
    · rintro (h | rfl)
      · exact h
      · rcases List.any_eq_true.mp hd with ⟨p, hp, hpk⟩
        exact List.mem_map.mpr ⟨p, hp, beq_iff_eq.mp hpk⟩
  · rw [if_neg hd]
    rw [List.map_append]
    simp [List.mem_append]

private lemma ruDict_fold_keys (x : String) :
    ∀ (l : List Row) (d : List (String × String)),
      x ∈ (l.foldl (fun d r => dictInsert d r.key r.text) d).map
          (fun p => p.1)
        ↔ x ∈ d.map (fun p => p.1) ∨ ∃ r ∈ l, r.key = x := by
  intro l
  induction l with
  | nil => intro d; simp
  | cons r l ih =>
    intro d
    rw [List.foldl_cons, ih, dictInsert_keys_mem]
    constructor
    · rintro ((h | rfl) | ⟨r2, hr2, hk⟩)
      · exact Or.inl h
      · exact Or.inr ⟨r, List.mem_cons_self r l, rfl⟩
      · exact Or.inr ⟨r2, List.mem_cons_of_mem r hr2, hk⟩
    · rintro (h | ⟨r2, hr2, hk⟩)
      · exact Or.inl (Or.inl h)
      · rcases List.mem_cons.mp hr2 with rfl | hl
        · exact Or.inl (Or.inr hk.symm)
        · exact Or.inr ⟨r2, hl, hk⟩

private lemma insert_fold_append (lang : String) :
    ∀ (ts : List (String × String)) (c : Catalog),
      ∃ u, ts.foldl
          (fun c kv =>
            if isBlank kv.2 then c
            else insertIgnoreTranslation c kv.1 lang kv.2) c
        = c ++ u := by
  intro ts
  induction ts with
  | nil => intro c; exact ⟨[], by simp⟩
  | cons kv ts ih =>
    intro c
    rw [List.foldl_cons]
    by_cases h : isBlank kv.2
    · rw [if_pos h]
      exact ih c
    · rw [if_neg h]
      rcases ih (insertIgnoreTranslation c kv.1 lang kv.2) with ⟨u, hu⟩
      refine ⟨⟨kv.1, lang, kv.2⟩ :: u, ?_⟩
      rw [hu]
      simp [insertIgnoreTranslation]

/-- C10 counterexample: with "greeting" already translated for "en", a
commit-mode backfill whose capability re-translates "greeting" DOES persist
the re-translation: the `INSERT ... IGNORE` has no unique constraint to act
on, so the pair ("greeting", "en") ends up with TWO rows — the insert step
does not prevent re-translation results for already-present pairs from
entering the table (the original row's text is, however, not modified). -/
theorem c10_retranslation_persisted_for_existing_pair :
    gpt_translation_handler [⟨"en", "English", "Anglijskij", "", true⟩] []
        (.returns "greeting: hi2")
        [⟨"greeting", "ru", "privet"⟩, ⟨"greeting", "en", "hello"⟩] "en"
      = ⟨200, some 1,
          [⟨"greeting", "ru", "privet"⟩, ⟨"greeting", "en", "hello"⟩,
           ⟨"greeting", "en", "hi2"⟩]⟩
    ∧ countPair
        (gpt_translation_handler [⟨"en", "English", "Anglijskij", "", true⟩]
          [] (.returns "greeting: hi2")
          [⟨"greeting", "ru", "privet"⟩, ⟨"greeting", "en", "hello"⟩]
          "en").catalog "greeting" "en" = 2
    ∧ (gpt_translation_handler [⟨"en", "English", "Anglijskij", "", true⟩]
        [] (.returns "greeting: hi2")
        [⟨"greeting", "ru", "privet"⟩, ⟨"greeting", "en", "hello"⟩]
        "en").catalog
      ≠ [⟨"greeting", "ru", "privet"⟩, ⟨"greeting", "en", "hello"⟩] := by
  refine ⟨rfl, rfl, by decide⟩

/-- C10 (amended): the commit-mode backfill builds its batch (`ru_dict`)
from every source-language row of the table — the reserved key "welcome"
and keys already translated for the target included, with no restriction to
the target's missing keys — and the persistence step only ever APPENDS
rows: existing rows are never modified, but re-translation results for
already-present (key, language) pairs are appended as duplicate rows rather
than suppressed, since the table has no unique constraint for
`INSERT ... IGNORE` to act on. -/
theorem c10_batch_all_ru_and_append_only (catalog : Catalog) :
    (∀ k : String,
      k ∈ (ruDict catalog).map (fun p => p.1)
        ↔ ∃ r ∈ catalog, r.key = k ∧ r.lang = "ru")
    ∧ ∀ (langs : List LanguageD) (flagsTbl : List (String × String))
        (cap : CapOutcome) (code : String),
        ∃ added : Catalog,
          (gpt_translation_handler langs flagsTbl cap catalog
              code).catalog
            = catalog ++ added := by
  constructor
  · intro k
    unfold ruDict
    rw [ruDict_fold_keys]
    simp only [List.map_nil, List.not_mem_nil, false_or]
    constructor
    · rintro ⟨r, hr, hk⟩
      have hf := List.mem_filter.mp hr
      exact ⟨r, hf.1, hk, beq_iff_eq.mp hf.2⟩
    · rintro ⟨r, hr, hk, hl⟩
      exact ⟨r, List.mem_filter.mpr ⟨hr, beq_iff_eq.mpr hl⟩, hk⟩
  · intro langs flagsTbl cap code
    unfold gpt_translation_handler
    cases htry : gpt_translation_try langs flagsTbl cap catalog code with
    | error e => exact ⟨[], by simp⟩
    | ok pr =>
      obtain ⟨c', n⟩ := pr
      unfold gpt_translation_try at htry
      cases hfind : langs.find? (fun l => l.code == code) with
      | none =>
        rw [hfind] at htry
        cases htry
      | some l =>
        rw [hfind] at htry
        cases cap with
        | raises => cases htry
        | returns raw =>
          simp only [Except.ok.injEq, Prod.mk.injEq] at htry
          rcases insert_fold_append l.code
            (parseResponse flagsTbl l.code raw) catalog with ⟨u, hu⟩
          refine ⟨u, ?_⟩
          show c' = catalog ++ u
          rw [← htry.1, hu]
